import Mathlib

/-!
Verification development for the `rua` tree-walking interpreter
(sources: src/value.rs, src/environment.rs, src/interpreter.rs, with the
AST shape taken from the node forms that src/interpreter.rs consumes).

The Rust runtime value `f64` (wrapped in `OrderedFloat`) is modelled by
`Rat`.  All programs examined by the theorems below compute only with
small integral numbers, where rational arithmetic agrees exactly with
IEEE-754 double arithmetic.  The arithmetic operations are written with
executable `mkRat`-based definitions so that concrete interpreter runs
reduce inside the kernel.
-/

set_option maxHeartbeats 8000000
set_option maxRecDepth 8192

namespace Rua

/-- Embed an integer as a rational (the model of an integral `f64`). -/
def ratOfInt (i : Int) : Rat := Rat.mk' i 1 one_ne_zero (Nat.coprime_one_right _)

/-- Model of `f64` addition on exactly representable values. -/
def ratAdd (a b : Rat) : Rat :=
  mkRat (a.num * (b.den : Int) + b.num * (a.den : Int)) (a.den * b.den)

/-- Model of `f64` subtraction on exactly representable values. -/
def ratSub (a b : Rat) : Rat :=
  mkRat (a.num * (b.den : Int) - b.num * (a.den : Int)) (a.den * b.den)

/-- Model of `f64` multiplication on exactly representable values. -/
def ratMul (a b : Rat) : Rat := mkRat (a.num * b.num) (a.den * b.den)

/-- Model of `f64` negation. -/
def ratNeg (a : Rat) : Rat := mkRat (-a.num) a.den

/-- Model of `f64` division on exactly representable values.  Division by
zero yields 0 here, while IEEE-754 yields an infinity or NaN; no claim
below exercises division by zero. -/
def ratDiv (a b : Rat) : Rat :=
  mkRat (a.num * (b.den : Int) * (if b.num < 0 then -1 else 1)) (a.den * b.num.natAbs)

/-- Floor of a rational, used to model `f64::floor` after a division. -/
def ratFloor (q : Rat) : Int := Int.fdiv q.num (q.den : Int)

/-- Truncation toward zero, used to model the `%` remainder of `f64`. -/
def ratTrunc (q : Rat) : Int := Int.tdiv q.num (q.den : Int)

/-- Natural powers of a rational. -/
def ratPowNat (a : Rat) : Nat → Rat
  | 0 => ratOfInt 1
  | n+1 => ratMul a (ratPowNat a n)

/-- Partial model of `f64::powf`: exact for integral exponents; a
fractional exponent (whose exact result is generally irrational) is
mapped to 0.  No claim below exercises `^`. -/
def ratPowf (base power : Rat) : Rat :=
  if power.den = 1 then
    if 0 ≤ power.num then ratPowNat base power.num.toNat
    else ratDiv (ratOfInt 1) (ratPowNat base (-power.num).toNat)
  else ratOfInt 0

/-- Boolean equality of rationals (the model of `OrderedFloat` `==` on
the values the claims exercise; `Rat` is kept normalized, so field
equality is value equality). -/
def ratEqB (a b : Rat) : Bool := a.num == b.num && a.den == b.den

/-- Boolean `<` on rationals by cross multiplication (denominators are
positive). -/
def ratLtB (a b : Rat) : Bool := decide (a.num * (b.den : Int) < b.num * (a.den : Int))

/-- Boolean `≤` on rationals by cross multiplication. -/
def ratLeB (a b : Rat) : Bool := decide (a.num * (b.den : Int) ≤ b.num * (a.den : Int))

/-- Display form of a number: Rust's `Display` for `f64` prints integral
values without a decimal point, which is all the theorems below display.
Non-integral values fall back to the `Rat` printer (their exact decimal
rendering is outside this model). -/
def numToString (q : Rat) : String :=
  if q.den = 1 then toString q.num else toString q

/-- Byte-lexicographic `<` on char lists (Rust compares `String`s by
their UTF-8 bytes; UTF-8 order coincides with code point order). -/
def charListLt : List Char → List Char → Bool
  | [], [] => false
  | [], _ :: _ => true
  | _ :: _, [] => false
  | a :: as, b :: bs =>
    if a.toNat < b.toNat then true
    else if a.toNat == b.toNat then charListLt as bs
    else false

/-- Model of Rust `String` `<`. -/
def strLtB (a b : String) : Bool := charListLt a.toList b.toList

/-- Model of Rust `String` `<=` (total order, so `a <= b` iff `¬ b < a`). -/
def strLeB (a b : String) : Bool := !(strLtB b a)

/-- A single quote character, used verbatim inside two runtime error
messages. -/
def sq : String := String.singleton (Char.ofNat 39)

-- ## Tokens (src/token.rs)

/-- Token kinds, from src/token.rs.  `NUMBER` carries the numeric model
of its `f64` payload. -/
inductive TokenType where
  | AND | OR | IF | THEN | ELSE | ELSEIF | WHILE | FOR | DO | END
  | BREAK | LOCAL | TRUE | FALSE | IN | NOT | FUNCTION | NIL | RETURN
  | LEFTPAREN | RIGHTPAREN | LEFTBRACKET | RIGHTBRACKET
  | DOUBLELEFTBRACKET | DOUBLERIGHTBRACKET | LEFTBRACE | RIGHTBRACE
  | COMMA | SEMICOLON | POUND
  | PLUS | MINUS | MUL | DIV | MOD | POW | FLOORDIV | DOTDOT
  | EQUAL | EQUALEQUAL | NOTEQUAL | GREATER | LESS | GREATEREQUAL | LESSEQUAL
  | NUMBER (value : Rat)
  | NAME (value : String)
  | STRING (value : String)
  | EOF

/-- A token with its source line (src/token.rs `Token`). -/
structure Token where
  tok_type : TokenType
  line : Nat

/-- Identifiers. -/
abbrev Name := String

-- ## AST
--
-- The checked-in src/ast.rs is a superseded draft (it lacks `Grouping`
-- and the per-statement `line` fields).  The shapes below are the ones
-- src/interpreter.rs destructures: statements carry `line`, expression
-- lists are plain vectors, and `Grouping` exists.

mutual

inductive Exp where
  | Literal (value : Token)
  | Unary (operator : Token) (right : Exp)
  | Binary (left : Exp) (operator : Token) (right : Exp)
  | Function (funcbody : FuncBody)
  | Var (var : Var)
  | FunctionCall (prefixexp : Exp) (arguments : List Exp)
  | TableConstructor (fieldlist : List Field)
  | Grouping (exp : Exp)

inductive Var where
  | Name (name : Name)
  | TableIndex (prefixexp : Exp) (exp : Exp)

inductive FuncBody where
  | mk (parlist : List Name) (block : List Stmt)

inductive Field where
  | mk (name : Option Name) (exp : Exp)

inductive Stmt where
  | Assign (left : List Var) (right : List Exp) (line : Nat)
  | LocalAssign (left : List Name) (right : List Exp) (line : Nat)
  | Break (line : Nat)
  | DoBlockEnd (block : List Stmt) (line : Nat)
  | WhileStmt (condition : Exp) (body : List Stmt) (line : Nat)
  | IfStmt (condition : Exp) (then_branch : List Stmt)
      (elseif_branches : List (Exp × List Stmt))
      (option_else_branch : Option (List Stmt)) (line : Nat)
  | NumericFor (name : Name) (start : Exp) (stop : Exp) (step : Exp)
      (body : List Stmt) (line : Nat)
  | GenericFor (namelist : List Name) (table : Exp) (body : List Stmt) (line : Nat)
  | FuncDecl (localFlag : Bool) (name : Name) (parlist : List Name)
      (body : List Stmt) (line : Nat)
  | FunctionCall (prefixexp : Exp) (arguments : List Exp) (line : Nat)
  | RetStmt (explist : List Exp) (line : Nat)

end

/-- A block is an ordered sequence of statements (src/ast.rs `Block`). -/
abbrev Block := List Stmt

-- ## Values (src/value.rs)

/-- Runtime values, from src/value.rs `Value`.  `Address` carries the
numeric address held by the `Address` struct of src/environment.rs. -/
inductive Value where
  | Bool (b : Bool)
  | Str (value : String)
  | Num (value : Rat)
  | Nil
  | Address (addr : Nat)
  | ValueList (values : List Value)
  | Print

/-- `Value::truthy`: false iff the value is nil or false.  (Declared
outside the `Value` namespace so that the name `Bool` in the signature
refers to the standard `Bool` type, not the constructor.) -/
def truthy : Value → Bool
  | .Bool b => b
  | .Nil => false
  | _ => true

/-- `Value::ty`: the type of the value in string format. -/
def Value.ty : Value → String
  | .Bool _ => "boolean"
  | .Str _ => "string"
  | .Num _ => "number"
  | .Nil => "nil"
  | .Address _ => "address"
  | .ValueList _ => "valuelist"
  | .Print => "function"

/-- Substring occurrence test on char lists (the model of Rust
`str::contains` with a string pattern). -/
def listContains (pat : List Char) : List Char → Bool
  | [] => pat.isEmpty
  | c :: rest => pat.isPrefixOf (c :: rest) || listContains pat rest

/-- `s.contains(pat)` for strings. -/
def strContains (s pat : String) : Bool := listContains pat.toList s.toList

/-- Drop one leading sign, part of the host float grammar. -/
def dropSign : List Char → List Char
  | [] => []
  | c :: rest => if c == '+' || c == '-' then rest else c :: rest

/-- Keyword alternatives of the host float grammar (case-insensitive
`inf`, `infinity`, `nan`). -/
def checkKeyword (cs : List Char) : Bool :=
  let l := cs.map Char.toLower
  l == ("inf").toList || l == ("infinity").toList || l == ("nan").toList

/-- Optional exponent part of the host float grammar:
`('e'|'E') sign? digit+` consuming the whole remainder, or nothing. -/
def checkExpPart : List Char → Bool
  | [] => true
  | c :: rest =>
    (c == 'e' || c == 'E') &&
      (let cs2 := dropSign rest
       !(cs2.takeWhile Char.isDigit).isEmpty && (cs2.dropWhile Char.isDigit).isEmpty)

/-- Number alternative of the host float grammar:
`digit+ ('.' digit*)? exp?` or `'.' digit+ exp?`. -/
def checkNumber (cs : List Char) : Bool :=
  let d1 := cs.takeWhile Char.isDigit
  let rest := cs.dropWhile Char.isDigit
  if d1.isEmpty then
    match rest with
    | c :: rest2 =>
      (c == '.') &&
        (let d2 := rest2.takeWhile Char.isDigit
         !d2.isEmpty && checkExpPart (rest2.dropWhile Char.isDigit))
    | [] => false
  else
    match rest with
    | c :: rest2 =>
      if c == '.' then checkExpPart (rest2.dropWhile Char.isDigit)
      else checkExpPart rest
    | [] => true

/-- Acceptance model of the host number parser
(`str::parse::<f64>` succeeds), per the documented `FromStr` grammar for
`f64`: an optional sign followed by a case-insensitive keyword
(`inf`, `infinity`, `nan`) or a decimal number with optional fraction and
exponent.  Grammar-valid input never fails (overflow yields an infinity,
not an error). -/
def rustF64Accepts (s : String) : Bool :=
  let cs := dropSign s.toList
  checkKeyword cs || checkNumber cs

/-- Numeric value of a digit string. -/
def digitsToNat (cs : List Char) : Nat :=
  cs.foldl (fun a c => 10 * a + (c.toNat - ('0').toNat)) 0

/-- Apply an exponent suffix to a parsed mantissa. -/
def applyExpPart (q : Rat) : List Char → Rat
  | [] => q
  | _ :: rest =>
    match rest with
    | c :: rest2 =>
      if c == '-' then
        ratDiv q (ratPowNat (ratOfInt 10) (digitsToNat (rest2.takeWhile Char.isDigit)))
      else if c == '+' then
        ratMul q (ratPowNat (ratOfInt 10) (digitsToNat (rest2.takeWhile Char.isDigit)))
      else
        ratMul q (ratPowNat (ratOfInt 10) (digitsToNat ((c :: rest2).takeWhile Char.isDigit)))
    | [] => q

/-- Value of a decimal mantissa with optional fraction and exponent. -/
def parseMantissa (cs : List Char) : Rat :=
  let d1 := cs.takeWhile Char.isDigit
  let rest := cs.dropWhile Char.isDigit
  match rest with
  | c :: rest2 =>
    if c == '.' then
      let d2 := rest2.takeWhile Char.isDigit
      let base := ratAdd (ratOfInt (Int.ofNat (digitsToNat d1)))
        (ratDiv (ratOfInt (Int.ofNat (digitsToNat d2))) (ratPowNat (ratOfInt 10) d2.length))
      applyExpPart base (rest2.dropWhile Char.isDigit)
    else applyExpPart (ratOfInt (Int.ofNat (digitsToNat d1))) rest
  | [] => ratOfInt (Int.ofNat (digitsToNat d1))

/-- Value model of the host number parser on accepted input.  Exact for
finite decimal text; the non-finite keyword forms (only reachable for
strings such as `INF` that slip past the substring filter) are not
representable in `Rat` and are mapped to 0 — no claim observes their
numeric value. -/
def rustF64Val (s : String) : Rat :=
  let cs0 := s.toList
  let neg := match cs0 with | c :: _ => c == '-' | [] => false
  let cs := dropSign cs0
  let v := if checkKeyword cs then ratOfInt 0 else parseMantissa cs
  if neg then ratNeg v else v

/-- `Value::number`: convert the value to a number if possible, from
src/value.rs.  A string first passes the hand-written substring filter
(rejecting anything containing `inf`, `nan` or a lowercase `e`) and is
then handed to the host parser. -/
def Value.number : Value → Option Rat
  | .Num value => some value
  | .Str value =>
    if strContains value ("inf") || strContains value ("nan")
        || strContains value ("e") then
      none
    else if rustF64Accepts value then some (rustF64Val value) else none
  | _ => none

/-- `Value::string`: convert the value to a string if possible. -/
def Value.string : Value → Option String
  | .Num value => some (numToString value)
  | .Str value => some value
  | _ => none

/-- `Value::compress`: if the value is a `ValueList`, recursively take
its first value (Nil when empty).  The source writes the non-list arms
as a single catch-all `_ => self`; they are expanded per constructor
here. -/
def Value.compress : Value → Value
  | .ValueList values =>
    match values with
    | [] => .Nil
    | v :: _ => Value.compress v
  | .Bool b => .Bool b
  | .Str s => .Str s
  | .Num q => .Num q
  | .Nil => .Nil
  | .Address a => .Address a
  | .Print => .Print

/-- `Value::expand`: a `ValueList` becomes its underlying vector, any
other value a singleton. -/
def Value.expand : Value → List Value
  | .ValueList values => values
  | v => [v]

mutual

/-- Structural equality of values (the model of the derived `PartialEq`
on `Value`, which Rust's `HashMap` uses for key comparison). -/
def valueBeq : Value → Value → Bool
  | .Bool a, .Bool b => a == b
  | .Str a, .Str b => a == b
  | .Num a, .Num b => ratEqB a b
  | .Nil, .Nil => true
  | .Address a, .Address b => a == b
  | .ValueList as, .ValueList bs => valueBeqList as bs
  | .Print, .Print => true
  | _, _ => false

/-- Structural equality of value vectors. -/
def valueBeqList : List Value → List Value → Bool
  | [], [] => true
  | a :: as, b :: bs => valueBeq a b && valueBeqList as bs
  | _, _ => false

end

/-- Hex digit characters. -/
def hexDigit (n : Nat) : Char :=
  if n < 10 then Char.ofNat (('0').toNat + n) else Char.ofNat (('a').toNat + (n - 10))

/-- Fixed-width lowercase hex rendering, the model of `{:012x}`
formatting in src/environment.rs (addresses stay far below 16^12). -/
def toHexAux : Nat → Nat → List Char
  | 0, _ => []
  | k+1, n => toHexAux k (n / 16) ++ [hexDigit (n % 16)]

/-- Display form of an address (`0x{:012x}`). -/
def addrToString (a : Nat) : String := "0x" ++ String.mk (toHexAux 12 a)

mutual

/-- Display form of a value (the `fmt::Display` impl in src/value.rs). -/
def Value.display : Value → String
  | .Bool b => if b then "true" else "false"
  | .Nil => "nil"
  | .Num value => numToString value
  | .Str value => value
  | .Address addr => addrToString addr
  | .ValueList values => displayListAux values
  | .Print => "print"

/-- Display of a value vector: elements joined by `", "`. -/
def displayListAux : List Value → String
  | [] => ""
  | [v] => Value.display v
  | v :: rest => Value.display v ++ ", " ++ displayListAux rest

end

-- ## Table (src/value.rs)
--
-- The Rust `Table` stores a `std::collections::HashMap<Value, Value>`,
-- whose iteration order is arbitrary and seed-dependent.  This model
-- keeps the entries as a duplicate-free association list in first-insert
-- order; everything except traversal order (lookup, insert, delete,
-- length) is order-independent and therefore faithful.  The source does
-- NOT guarantee the traversal order this list exhibits.

/-- Insert-or-update preserving the original key (Rust `HashMap::insert`
updates the value and keeps the stored key). -/
def mapInsert : List (Value × Value) → Value → Value → List (Value × Value)
  | [], k, v => [(k, v)]
  | (k0, v0) :: rest, k, v =>
    if valueBeq k0 k then (k0, v) :: rest else (k0, v0) :: mapInsert rest k v

/-- Remove a key (Rust `HashMap::remove`). -/
def mapRemove : List (Value × Value) → Value → List (Value × Value)
  | [], _ => []
  | (k0, v0) :: rest, k =>
    if valueBeq k0 k then rest else (k0, v0) :: mapRemove rest k

/-- Lookup (Rust `HashMap::get`). -/
def mapLookup : List (Value × Value) → Value → Option Value
  | [], _ => none
  | (k0, v0) :: rest, k =>
    if valueBeq k0 k then some v0 else mapLookup rest k

/-- The inner structure of a heap table (src/value.rs `Table`). -/
structure Table where
  map : List (Value × Value)

/-- `Table::new`. -/
def Table.new : Table := ⟨[]⟩

/-- `Table::index`: lookup with Nil for an absent key. -/
def Table.index (t : Table) (i : Value) : Value :=
  match mapLookup t.map i with
  | some v => v
  | none => Value.Nil

/-- `Table::insert`: inserting Nil deletes the key. -/
def Table.insert (t : Table) (key val : Value) : Table :=
  match val with
  | .Nil => ⟨mapRemove t.map key⟩
  | _ => ⟨mapInsert t.map key val⟩

/-- `Table::len`: the number of stored pairs. -/
def Table.len (t : Table) : Nat := t.map.length

-- ## Environment (src/environment.rs)

/-- Insert-or-update for the name map of a frame. -/
def envInsert : List (Name × Value) → Name → Value → List (Name × Value)
  | [], n, v => [(n, v)]
  | (k, w) :: rest, n, v =>
    if k = n then (k, v) :: rest else (k, w) :: envInsert rest n v

/-- Lookup in the name map of a frame. -/
def envLookup : List (Name × Value) → Name → Option Value
  | [], _ => none
  | (k, w) :: rest, n => if k = n then some w else envLookup rest n

/-- One lexical frame: a map from names to values (src/environment.rs
`Environment`, whose `HashMap<String, Value>` is modelled by a
duplicate-free association list; no operation depends on its order). -/
structure Environment where
  table : List (Name × Value)

/-- `Environment::new`. -/
def Environment.new : Environment := ⟨[]⟩

/-- `Environment::global_env`: the globals frame seeded with `print`. -/
def Environment.global_env : Environment := ⟨[(("print"), Value.Print)]⟩

/-- `Environment::define`. -/
def Environment.define (e : Environment) (name : Name) (value : Value) : Environment :=
  ⟨envInsert e.table name value⟩

/-- `Environment::get`. -/
def Environment.get (e : Environment) (name : Name) : Option Value :=
  envLookup e.table name

/-- `Environment::contain`. -/
def Environment.contain (e : Environment) (name : Name) : Bool :=
  (envLookup e.table name).isSome

-- ## Heap objects (src/value.rs `HeapObj`)

/-- Heap-resident objects: closures and tables. -/
inductive HeapObj where
  | Function (parameters : List Name) (body : Block) (closure : List Environment)
  | Table (table : Table)

/-- `HeapObj::ty`. -/
def HeapObj.ty : HeapObj → String
  | .Function _ _ _ => "function"
  | .Table _ => "table"

-- ## Interpreter state and signals (src/interpreter.rs)

/-- The interpreter state (src/interpreter.rs `Interpreter`).  The stack
is stored top-first: Rust pushes at the end of its `Vec`, this model
pushes at the head, so the globals frame is the last list element.  The
extra `output` field models the bytes written to standard output by
`print!`. -/
structure Interp where
  env_stack : List Environment
  addr_space : List (Nat × HeapObj)
  cur_addr : Nat
  output : String

/-- The signal channel (src/interpreter.rs `RuntimeException`). -/
inductive RuntimeException where
  | RuntimeError (line : Nat) (message : String)
  | RetResult (values : List Value)
  | Break (line : Nat)

/-- Result of a model step: a value, a raised signal, a host-level Rust
panic (out-of-bounds index, failed unwrap, `unimplemented!`), or fuel
exhaustion of the model (never a program behaviour). -/
inductive Outcome (α : Type) where
  | ok (a : α)
  | ex (e : RuntimeException)
  | hostPanic (msg : String)
  | timeout

/-- A step result paired with the updated interpreter state. -/
abbrev OutInterp (α : Type) := Outcome α × Interp

/-- Sequencing that mirrors Rust's `?`: signals, panics and timeouts
short-circuit. -/
def bindO {α β : Type} : OutInterp α → (α → Interp → OutInterp β) → OutInterp β
  | (.ok a, s), f => f a s
  | (.ex e, s), _ => (.ex e, s)
  | (.hostPanic m, s), _ => (.hostPanic m, s)
  | (.timeout, s), _ => (.timeout, s)

/-- `Interpreter::new`: a single globals frame, an empty address space,
and the starting allocation cursor. -/
def Interp.new : Interp :=
  { env_stack := [Environment.global_env]
    addr_space := []
    cur_addr := 0x0000ffff0000
    output := "" }

/-- `Interpreter::push_env`: the frame is pushed first; a depth of 1000
or more then reports a runtime error. -/
def Interp.push_env (s : Interp) (env : Environment) (line : Nat) : OutInterp Unit :=
  let s1 : Interp := { s with env_stack := env :: s.env_stack }
  if s1.env_stack.length ≥ 1000 then
    (.ex (.RuntimeError line ("exceeds the maximum stack sizes")), s1)
  else
    (.ok (), s1)

/-- `Interpreter::pop_env`.  The Rust `unwrap` can only panic on an
empty stack, which no reachable state produces; the model simply drops
the top frame. -/
def Interp.pop_env (s : Interp) : Interp :=
  { s with env_stack := s.env_stack.tail }

/-- `Interpreter::define_local`: write in the top frame. -/
def Interp.define_local (s : Interp) (name : Name) (value : Value) : Interp :=
  { s with env_stack :=
      match s.env_stack with
      | [] => []
      | e :: rest => e.define name value :: rest }

/-- Walk the stack top-down; write into the first frame containing the
name, or into the globals frame (the last element, Rust index 0). -/
def defineGlobalAux : List Environment → Name → Value → List Environment
  | [], _, _ => []
  | [e], n, v => [e.define n v]
  | e :: rest, n, v =>
    if e.contain n then e.define n v :: rest else e :: defineGlobalAux rest n v

/-- `Interpreter::define_global` (the `assign` operation). -/
def Interp.define_global (s : Interp) (name : Name) (value : Value) : Interp :=
  { s with env_stack := defineGlobalAux s.env_stack name value }

/-- Walk the stack top-down and return the first binding. -/
def getAux : List Environment → Name → Option Value
  | [], _ => none
  | e :: rest, n =>
    match e.get n with
    | some v => some v
    | none => getAux rest n

/-- `Interpreter::get`: name lookup over the whole stack. -/
def Interp.get (s : Interp) (name : Name) : Option Value :=
  getAux s.env_stack name

/-- `Interpreter::alloc`: hand out the cursor and advance it by 128. -/
def Interp.alloc (s : Interp) (obj : HeapObj) : Nat × Interp :=
  let old_addr := s.cur_addr
  (old_addr,
    { s with
      cur_addr := s.cur_addr + 128
      addr_space := (old_addr, obj) :: s.addr_space })

/-- Address lookup in the heap. -/
def addrLookup : List (Nat × HeapObj) → Nat → Option HeapObj
  | [], _ => none
  | (a, o) :: rest, k => if a = k then some o else addrLookup rest k

/-- Overwrite the object stored at an address. -/
def addrUpdate : List (Nat × HeapObj) → Nat → HeapObj → List (Nat × HeapObj)
  | [], _, _ => []
  | (a, o) :: rest, k, obj =>
    if a = k then (a, obj) :: rest else (a, o) :: addrUpdate rest k obj

/-- `Interpreter::dereference`. -/
def Interp.dereference (s : Interp) (addr : Nat) : Option HeapObj :=
  addrLookup s.addr_space addr

/-- `Interpreter::assign_table`: a table insert through an address; a
non-table object is an assignment error, an absent address hits the
Rust `unimplemented!()` panic. -/
def Interp.assign_table (s : Interp) (addr : Nat) (key val : Value) (line : Nat) :
    OutInterp Unit :=
  match addrLookup s.addr_space addr with
  | some (HeapObj.Table t) =>
    (.ok (), { s with addr_space := addrUpdate s.addr_space addr (HeapObj.Table (t.insert key val)) })
  | some obj =>
    (.ex (.RuntimeError line ("attempt to assign a " ++ obj.ty ++ " value")), s)
  | none => (.hostPanic ("unimplemented"), s)

/-- Drop a given number of frames (the model of the Rust loop
`while self.env_stack.len() > rec_n { self.pop_env() }`). -/
def popN : Nat → Interp → Interp
  | 0, s => s
  | k+1, s => popN k s.pop_env

/-- Pop frames until the stack depth returns to `rec_n`. -/
def Interp.popToLen (s : Interp) (rec_n : Nat) : Interp :=
  popN (s.env_stack.length - rec_n) s

/-- `Interpreter::equal` (the receiver is unused in the source):
different types are unequal; numbers, strings and addresses compare by
the shown rules; every other pairing falls into the catch-all. -/
def equal (left right : Value) : Bool :=
  match left, right with
  | .Num a, .Num b => ratEqB a b
  | .Str a, .Str b => a == b
  | .Address a, .Address b => a == b
  | _, _ => false

/-- `Interpreter::less`. -/
def less (left right : Value) (line : Nat) : Outcome Value :=
  match left, right with
  | .Num a, .Num b => .ok (.Bool (ratLtB a b))
  | .Str a, .Str b => .ok (.Bool (strLtB a b))
  | _, _ =>
    .ex (.RuntimeError line ("attempt to compare " ++ left.ty ++ " with " ++ right.ty))

/-- `Interpreter::less_equal`. -/
def less_equal (left right : Value) (line : Nat) : Outcome Value :=
  match left, right with
  | .Num a, .Num b => .ok (.Bool (ratLeB a b))
  | .Str a, .Str b => .ok (.Bool (strLeB a b))
  | _, _ =>
    .ex (.RuntimeError line ("attempt to compare " ++ left.ty ++ " with " ++ right.ty))

/-- `Interpreter::greater`: swap the operands of `less`. -/
def greater (left right : Value) (line : Nat) : Outcome Value :=
  less right left line

/-- `Interpreter::greater_equal`: swap the operands of `less_equal`. -/
def greater_equal (left right : Value) (line : Nat) : Outcome Value :=
  less_equal right left line

/-- Bind each name of a namelist to the value at its position (the
definition loop shared by `assign_local_namelist` and the generic-for
binder; missing positions are Nil). -/
def define_locals (s : Interp) (names : List Name) (values : List Value) (i : Nat) : Interp :=
  match names with
  | [] => s
  | nm :: rest => define_locals (s.define_local nm (values.getD i Value.Nil)) rest values (i+1)

/-- The store loop of `exec_assign`.  A `Name` target fills a missing
source with Nil (`values.get(i).unwrap_or(&Value::Nil)`); a
`TableIndex` target indexes `values[i]` directly, which panics when the
position is missing. -/
def assign_targets (s : Interp) (vars : List Var) (values : List Value)
    (pres_keys : List (Value × Value)) (i : Nat) (line : Nat) : OutInterp Unit :=
  match vars with
  | [] => (.ok (), s)
  | Var.Name name :: rest =>
    assign_targets (s.define_global name (values.getD i Value.Nil)) rest values pres_keys (i+1) line
  | Var.TableIndex _ _ :: rest =>
    let res := (pres_keys.getD i (Value.Nil, Value.Nil)).1
    match res with
    | .Address addr =>
      let key := (pres_keys.getD i (Value.Nil, Value.Nil)).2
      match values.get? i with
      | some v =>
        bindO (s.assign_table addr key v line) (fun _ s1 =>
          assign_targets s1 rest values pres_keys (i+1) line)
      | none => (.hostPanic ("index out of bounds"), s)
    | _ =>
      (.ex (.RuntimeError line ("attempt to assign a " ++ res.ty ++ " value")), s)

/-- Append a run of positional fields for an expanded trailing
`ValueList` of a table constructor. -/
def insert_list (t : Table) (num_index : Rat) : List Value → Table
  | [] => t
  | v :: rest => insert_list (t.insert (.Num num_index) v) (ratAdd num_index (ratOfInt 1)) rest

/-- `Interpreter::eval_literal`. -/
def eval_literal (s : Interp) (value : Token) : OutInterp Value :=
  match value.tok_type with
  | .TRUE => (.ok (.Bool true), s)
  | .FALSE => (.ok (.Bool false), s)
  | .NIL => (.ok .Nil, s)
  | .STRING v => (.ok (.Str v), s)
  | .NUMBER v => (.ok (.Num v), s)
  | _ => (.hostPanic ("unimplemented"), s)

/-- `Interpreter::eval_func_exp`: allocate a closure capturing a clone
of the current environment stack. -/
def Interp.eval_func_exp (s : Interp) (funcbody : FuncBody) : OutInterp Value :=
  match funcbody with
  | .mk parlist block =>
    let (addr, s1) := s.alloc (HeapObj.Function parlist block s.env_stack)
    (.ok (.Address addr), s1)

/-- `Interpreter::exec_func_decl`: allocate the closure, then bind its
address locally or through `define_global`. -/
def Interp.exec_func_decl (s : Interp) (localFlag : Bool) (name : Name)
    (parlist : List Name) (body : Block) : OutInterp Unit :=
  let func := HeapObj.Function parlist body s.env_stack
  let (addr, s1) := s.alloc func
  if localFlag then (.ok (), s1.define_local name (.Address addr))
  else (.ok (), s1.define_global name (.Address addr))

-- ## The evaluator / executor (src/interpreter.rs)
--
-- Every function takes a fuel argument decremented on each call; fuel
-- exhaustion yields the distinct `timeout` outcome, never a program
-- behaviour.  The indexed `for` loops of the source over expression,
-- variable and field vectors are written as list recursions.

mutual

/-- `Interpreter::eval`: expression dispatch. -/
def eval (fuel : Nat) (s : Interp) (e : Exp) (line : Nat) : OutInterp Value :=
  match fuel with
  | 0 => (.timeout, s)
  | fuel+1 =>
    match e with
    | .Literal value => eval_literal s value
    | .Unary operator right => eval_unary fuel s operator right line
    | .Binary left operator right => eval_binary fuel s operator left right line
    | .FunctionCall prefixexp arguments => eval_func_call fuel s prefixexp arguments line
    | .Var var => eval_var fuel s var line
    | .Function funcbody => s.eval_func_exp funcbody
    | .TableConstructor fieldlist => eval_table fuel s fieldlist line
    | .Grouping exp => eval fuel s exp line
termination_by structural fuel

/-- `Interpreter::eval_unary`. -/
def eval_unary (fuel : Nat) (s : Interp) (op : Token) (right : Exp) (line : Nat) : OutInterp Value :=
  match fuel with
  | 0 => (.timeout, s)
  | fuel+1 =>
    bindO (eval fuel s right line) (fun r0 s1 =>
      let right_v := r0.compress
      match op.tok_type with
      | .NOT => (.ok (.Bool (!truthy right_v)), s1)
      | .MINUS =>
        match right_v with
        | .Num value => (.ok (.Num (ratNeg value)), s1)
        | _ =>
          match right_v.number with
          | some val => (.ok (.Num (ratNeg val)), s1)
          | none =>
            (.ex (.RuntimeError op.line
              ("attempt to perform negate operation on a " ++ sq ++ right_v.ty ++ sq)), s1)
      | .POUND =>
        let r_ty := right_v.ty
        match right_v with
        | .Address addr =>
          match s1.dereference addr with
          | some (HeapObj.Table t) => (.ok (.Num (ratOfInt (Int.ofNat t.len))), s1)
          | _ =>
            (.ex (.RuntimeError line ("attempt to get length of a function value")), s1)
        | .Str value => (.ok (.Num (ratOfInt (Int.ofNat value.utf8ByteSize))), s1)
        | _ =>
          (.ex (.RuntimeError line ("attempt to get length of a " ++ r_ty ++ " value")), s1)
      | _ => (.hostPanic ("unimplemented"), s1))
termination_by structural fuel

/-- `Interpreter::eval_binary`: the left operand is evaluated and
collapsed first; each arithmetic arm then evaluates the right operand
and coerces both with `Value::number`; `and`/`or` short-circuit and
reduce to Booleans. -/
def eval_binary (fuel : Nat) (s : Interp) (op : Token) (left : Exp) (right : Exp) (line : Nat) : OutInterp Value :=
  match fuel with
  | 0 => (.timeout, s)
  | fuel+1 =>
    bindO (eval fuel s left line) (fun l0 s1 =>
      let left_v := l0.compress
      match op.tok_type with
      | .PLUS =>
        bindO (eval fuel s1 right line) (fun r0 s2 =>
          let right_v := r0.compress
          match left_v.number, right_v.number with
          | some a, some b => (.ok (.Num (ratAdd a b)), s2)
          | _, _ =>
            (.ex (.RuntimeError op.line
              ("attempt to add " ++ left_v.ty ++ " with " ++ right_v.ty)), s2))
      | .MINUS =>
        bindO (eval fuel s1 right line) (fun r0 s2 =>
          let right_v := r0.compress
          match left_v.number, right_v.number with
          | some a, some b => (.ok (.Num (ratSub a b)), s2)
          | _, _ =>
            (.ex (.RuntimeError op.line
              ("attempt to subtract " ++ left_v.ty ++ " by " ++ right_v.ty)), s2))
      | .MUL =>
        bindO (eval fuel s1 right line) (fun r0 s2 =>
          let right_v := r0.compress
          match left_v.number, right_v.number with
          | some a, some b => (.ok (.Num (ratMul a b)), s2)
          | _, _ =>
            (.ex (.RuntimeError op.line
              ("attempt to mul " ++ left_v.ty ++ " with " ++ right_v.ty)), s2))
      | .DIV =>
        bindO (eval fuel s1 right line) (fun r0 s2 =>
          let right_v := r0.compress
          match left_v.number, right_v.number with
          | some a, some b => (.ok (.Num (ratDiv a b)), s2)
          | _, _ =>
            (.ex (.RuntimeError op.line
              ("attempt to divide " ++ left_v.ty ++ " with " ++ right_v.ty)), s2))
      | .FLOORDIV =>
        bindO (eval fuel s1 right line) (fun r0 s2 =>
          let right_v := r0.compress
          match left_v.number, right_v.number with
          | some a, some b => (.ok (.Num (ratOfInt (ratFloor (ratDiv a b)))), s2)
          | _, _ =>
            (.ex (.RuntimeError op.line
              ("attempt to divide " ++ left_v.ty ++ " with " ++ right_v.ty)), s2))
      | .MOD =>
        bindO (eval fuel s1 right line) (fun r0 s2 =>
          let right_v := r0.compress
          match left_v.number, right_v.number with
          | some a, some b =>
            (.ok (.Num (ratSub a (ratMul b (ratOfInt (ratTrunc (ratDiv a b)))))), s2)
          | _, _ =>
            (.ex (.RuntimeError op.line
              ("attempt to divide " ++ left_v.ty ++ " with " ++ right_v.ty)), s2))
      | .POW =>
        bindO (eval fuel s1 right line) (fun r0 s2 =>
          let right_v := r0.compress
          match left_v.number with
          | some base =>
            match right_v.number with
            | some power => (.ok (.Num (ratPowf base power)), s2)
            | none =>
              (.ex (.RuntimeError op.line
                ("attempt to perform arithmetic on " ++ right_v.ty ++ " value")), s2)
          | none =>
            (.ex (.RuntimeError op.line
              ("attempt to perform arithmetic on " ++ left_v.ty ++ " value")), s2))
      | .DOTDOT =>
        bindO (eval fuel s1 right line) (fun r0 s2 =>
          let right_v := r0.compress
          let l_ty := left_v.ty
          let r_ty := right_v.ty
          match left_v.string, right_v.string with
          | some a, some b => (.ok (.Str (a ++ b)), s2)
          | _, _ =>
            (.ex (.RuntimeError op.line
              ("attempt to concat " ++ l_ty ++ " with " ++ r_ty)), s2))
      | .LESS =>
        bindO (eval fuel s1 right line) (fun r0 s2 =>
          (less left_v r0.compress op.line, s2))
      | .LESSEQUAL =>
        bindO (eval fuel s1 right line) (fun r0 s2 =>
          (less_equal left_v r0.compress op.line, s2))
      | .GREATER =>
        bindO (eval fuel s1 right line) (fun r0 s2 =>
          (greater left_v r0.compress op.line, s2))
      | .GREATEREQUAL =>
        bindO (eval fuel s1 right line) (fun r0 s2 =>
          (greater_equal left_v r0.compress op.line, s2))
      | .EQUALEQUAL =>
        bindO (eval fuel s1 right line) (fun r0 s2 =>
          (.ok (.Bool (equal left_v r0.compress)), s2))
      | .NOTEQUAL =>
        bindO (eval fuel s1 right line) (fun r0 s2 =>
          (.ok (.Bool (!equal left_v r0.compress)), s2))
      | .AND =>
        if truthy left_v then
          bindO (eval fuel s1 right line) (fun r0 s2 =>
            (.ok (.Bool (truthy r0.compress)), s2))
        else (.ok (.Bool false), s1)
      | .OR =>
        if truthy left_v then (.ok (.Bool true), s1)
        else
          bindO (eval fuel s1 right line) (fun r0 s2 =>
            (.ok (.Bool (truthy r0.compress)), s2))
      | _ => (.hostPanic ("unimplemented"), s1))
termination_by structural fuel

/-- `Interpreter::eval_var`: name lookup, or a table read whose prefix
is dereferenced before the key is evaluated. -/
def eval_var (fuel : Nat) (s : Interp) (var : Var) (line : Nat) : OutInterp Value :=
  match fuel with
  | 0 => (.timeout, s)
  | fuel+1 =>
    match var with
    | .Name name =>
      match s.get name with
      | some val => (.ok val, s)
      | none => (.ok .Nil, s)
    | .TableIndex prefixexp exp =>
      bindO (eval fuel s prefixexp line) (fun t0 s1 =>
        let table_addr := t0.compress
        match table_addr with
        | .Address addr =>
          let table := s1.dereference addr
          bindO (eval fuel s1 exp line) (fun i0 s2 =>
            let i := i0.compress
            match table with
            | some (HeapObj.Table t) => (.ok (t.index i), s2)
            | _ =>
              (.ex (.RuntimeError line ("attempt to index a function value")), s2))
        | _ =>
          (.ex (.RuntimeError line
            ("attempt to index a " ++ table_addr.ty ++ " value")), s1))
termination_by structural fuel

/-- `Interpreter::eval_func_call`.  For a closure: record the depth,
append the captured stack, push the parameter frame, bind parameters
(which is where the argument expressions are evaluated), run the body,
pop back to the recorded depth, then turn a `RetResult` into a
`ValueList` and propagate every other signal unchanged. -/
def eval_func_call (fuel : Nat) (s : Interp) (prefixexp : Exp) (arguments : List Exp) (line : Nat) : OutInterp Value :=
  match fuel with
  | 0 => (.timeout, s)
  | fuel+1 =>
    bindO (eval fuel s prefixexp line) (fun f0 s1 =>
      let func_name := f0.compress
      match func_name with
      | .Address addr =>
        match s1.dereference addr with
        | some (HeapObj.Function parameters body closure) =>
          let rec_n := s1.env_stack.length
          let s2 : Interp := { s1 with env_stack := closure ++ s1.env_stack }
          bindO (s2.push_env Environment.new line) (fun _ s3 =>
            bindO (assign_local_namelist fuel s3 parameters arguments line) (fun _ s4 =>
              match exec_block fuel s4 body with
              | (out, s5) =>
                let s6 := (s5.pop_env).popToLen rec_n
                match out with
                | .ex (.RetResult values) => (.ok (.ValueList values), s6)
                | .ok _ => (.ok .Nil, s6)
                | .ex e => (.ex e, s6)
                | .hostPanic m => (.hostPanic m, s6)
                | .timeout => (.timeout, s6)))
        | _ =>
          (.ex (.RuntimeError line ("attempt to call a table value")), s1)
      | .Print => call_print fuel s1 arguments line
      | _ =>
        (.ex (.RuntimeError line
          ("attempt to call a " ++ func_name.ty ++ " value")), s1))
termination_by structural fuel

/-- `Interpreter::eval_table`: build the table field by field, then
allocate it. -/
def eval_table (fuel : Nat) (s : Interp) (fieldlist : List Field) (line : Nat) : OutInterp Value :=
  match fuel with
  | 0 => (.timeout, s)
  | fuel+1 =>
    bindO (table_fields fuel s Table.new (ratOfInt 1) fieldlist line) (fun t s1 =>
      let (addr, s2) := s1.alloc (HeapObj.Table t)
      (.ok (.Address addr), s2))
termination_by structural fuel

/-- The field loop of `eval_table`: non-trailing fields are collapsed;
a trailing positional field producing a `ValueList` is appended element
by element, a trailing named field keeps only the first element. -/
def table_fields (fuel : Nat) (s : Interp) (t : Table) (num_index : Rat) (fields : List Field) (line : Nat) : OutInterp Table :=
  match fuel with
  | 0 => (.timeout, s)
  | fuel+1 =>
    match fields with
    | [] => (.ok t, s)
    | [f] =>
      match f with
      | .mk nameOpt fexp =>
        bindO (eval fuel s fexp line) (fun val s1 =>
          match val with
          | .ValueList values =>
            match nameOpt with
            | some name => (.ok (t.insert (.Str name) (values.getD 0 .Nil)), s1)
            | none => (.ok (insert_list t num_index values), s1)
          | _ =>
            match nameOpt with
            | some name => (.ok (t.insert (.Str name) val), s1)
            | none => (.ok (t.insert (.Num num_index) val), s1))
    | f :: rest =>
      match f with
      | .mk nameOpt fexp =>
        bindO (eval fuel s fexp line) (fun v0 s1 =>
          let val := v0.compress
          match nameOpt with
          | some name => table_fields fuel s1 (t.insert (.Str name) val) num_index rest line
          | none =>
            table_fields fuel s1 (t.insert (.Num num_index) val)
              (ratAdd num_index (ratOfInt 1)) rest line)
termination_by structural fuel

/-- `Interpreter::call_print`: every argument is evaluated and
collapsed; each display form is written followed by a tab, then one
newline is written. -/
def call_print (fuel : Nat) (s : Interp) (arguments : List Exp) (line : Nat) : OutInterp Value :=
  match fuel with
  | 0 => (.timeout, s)
  | fuel+1 =>
    bindO (eval_explist_compress_all fuel s arguments line) (fun values s1 =>
      let out := values.foldl (fun acc v => acc ++ v.display ++ "\t") ""
      (.ok .Nil, { s1 with output := s1.output ++ out ++ "\n" }))
termination_by structural fuel

/-- Evaluate an expression list with multi-value expansion of the last
expression only (the loop written inline in both `exec_assign` and
`assign_local_namelist`). -/
def eval_explist_expand_last (fuel : Nat) (s : Interp) (exps : List Exp) (line : Nat) : OutInterp (List Value) :=
  match fuel with
  | 0 => (.timeout, s)
  | fuel+1 =>
    match exps with
    | [] => (.ok [], s)
    | [e] =>
      bindO (eval fuel s e line) (fun v s1 => (.ok v.expand, s1))
    | e :: rest =>
      bindO (eval fuel s e line) (fun v s1 =>
        bindO (eval_explist_expand_last fuel s1 rest line) (fun vs s2 =>
          (.ok (v.compress :: vs), s2)))
termination_by structural fuel

/-- Evaluate an expression list collapsing every element (the loop of
`exec_return` and `call_print`). -/
def eval_explist_compress_all (fuel : Nat) (s : Interp) (exps : List Exp) (line : Nat) : OutInterp (List Value) :=
  match fuel with
  | 0 => (.timeout, s)
  | fuel+1 =>
    match exps with
    | [] => (.ok [], s)
    | e :: rest =>
      bindO (eval fuel s e line) (fun v s1 =>
        bindO (eval_explist_compress_all fuel s1 rest line) (fun vs s2 =>
          (.ok (v.compress :: vs), s2)))
termination_by structural fuel

/-- `Interpreter::assign_local_namelist`: evaluate the right-hand list
with expansion of the last element, then define each name in the top
frame. -/
def assign_local_namelist (fuel : Nat) (s : Interp) (namelist : List Name) (explist : List Exp) (line : Nat) : OutInterp Unit :=
  match fuel with
  | 0 => (.timeout, s)
  | fuel+1 =>
    bindO (eval_explist_expand_last fuel s explist line) (fun values s1 =>
      (.ok (), define_locals s1 namelist values 0))
termination_by structural fuel

/-- The second phase of `exec_assign`: pre-evaluate prefix and key of
every `TableIndex` target (Name targets keep the `(Nil, Nil)`
placeholder of the source's prefilled vector). -/
def eval_pres_keys (fuel : Nat) (s : Interp) (vars : List Var) (line : Nat) : OutInterp (List (Value × Value)) :=
  match fuel with
  | 0 => (.timeout, s)
  | fuel+1 =>
    match vars with
    | [] => (.ok [], s)
    | Var.Name _ :: rest =>
      bindO (eval_pres_keys fuel s rest line) (fun ps s1 =>
        (.ok ((Value.Nil, Value.Nil) :: ps), s1))
    | Var.TableIndex prefixexp exp :: rest =>
      bindO (eval fuel s prefixexp line) (fun pv s1 =>
        bindO (eval fuel s1 exp line) (fun kv s2 =>
          bindO (eval_pres_keys fuel s2 rest line) (fun ps s3 =>
            (.ok ((pv.compress, kv.compress) :: ps), s3))))
termination_by structural fuel

/-- `Interpreter::exec_assign`: evaluate the right-hand side, then all
table-target prefixes and keys, then perform the stores. -/
def exec_assign (fuel : Nat) (s : Interp) (left : List Var) (right : List Exp) (line : Nat) : OutInterp Unit :=
  match fuel with
  | 0 => (.timeout, s)
  | fuel+1 =>
    bindO (eval_explist_expand_last fuel s right line) (fun values s1 =>
      bindO (eval_pres_keys fuel s1 left line) (fun pres_keys s2 =>
        assign_targets s2 left values pres_keys 0 line))
termination_by structural fuel

/-- `Interpreter::exec_block`: run the statements in order. -/
def exec_block (fuel : Nat) (s : Interp) (block : Block) : OutInterp Unit :=
  match fuel with
  | 0 => (.timeout, s)
  | fuel+1 =>
    match block with
    | [] => (.ok (), s)
    | st :: rest =>
      bindO (exec fuel s st) (fun _ s1 => exec_block fuel s1 rest)
termination_by structural fuel

/-- `Interpreter::exec`: statement dispatch. -/
def exec (fuel : Nat) (s : Interp) (stmt : Stmt) : OutInterp Unit :=
  match fuel with
  | 0 => (.timeout, s)
  | fuel+1 =>
    match stmt with
    | .Assign left right line => exec_assign fuel s left right line
    | .LocalAssign left right line => assign_local_namelist fuel s left right line
    | .Break line => (.ex (.Break line), s)
    | .DoBlockEnd block line =>
      bindO (s.push_env Environment.new line) (fun _ s1 =>
        bindO (exec_block fuel s1 block) (fun _ s2 => (.ok (), s2.pop_env)))
    | .FuncDecl localFlag name parlist body _ =>
      s.exec_func_decl localFlag name parlist body
    | .FunctionCall prefixexp arguments line =>
      bindO (eval_func_call fuel s prefixexp arguments line) (fun _ s1 => (.ok (), s1))
    | .GenericFor namelist table body line => exec_generic_for fuel s namelist table body line
    | .NumericFor name start stop step body line =>
      exec_numeric_for fuel s name start stop step body line
    | .IfStmt condition then_branch elseif_branches option_else_branch line =>
      exec_if fuel s condition then_branch elseif_branches option_else_branch line
    | .WhileStmt condition body line => exec_while fuel s condition body line
    | .RetStmt explist line => exec_return fuel s explist line
termination_by structural fuel

/-- `Interpreter::exec_generic_for`: the source expression must collapse
to a table address; the entries are then traversed (see the `Table`
model note: the source's `HashMap` iteration order is arbitrary). -/
def exec_generic_for (fuel : Nat) (s : Interp) (namelist : List Name) (table : Exp) (body : Block) (line : Nat) : OutInterp Unit :=
  match fuel with
  | 0 => (.timeout, s)
  | fuel+1 =>
    bindO (eval fuel s table line) (fun r0 s1 =>
      let res := r0.compress
      let res_ty := res.ty
      match res with
      | .Address addr =>
        match s1.dereference addr with
        | some (HeapObj.Table t) => gfor_loop fuel s1 namelist t.map body line
        | some _ =>
          (.ex (.RuntimeError line
            ("bad argument to " ++ sq ++ "pairs" ++ sq ++ " (table expected, got function)")), s1)
        | none => (.hostPanic ("unwrap on None"), s1)
      | _ =>
        (.ex (.RuntimeError line
          ("bad argument to " ++ sq ++ "pairs" ++ sq ++ " (table expected, got " ++ res_ty ++ ")")), s1))
termination_by structural fuel

/-- The iteration loop of `exec_generic_for`: per entry, push a frame,
bind the names to key and value, run the body; `Break` pops and exits;
other signals propagate without the pop. -/
def gfor_loop (fuel : Nat) (s : Interp) (namelist : List Name) (entries : List (Value × Value)) (body : Block) (line : Nat) : OutInterp Unit :=
  match fuel with
  | 0 => (.timeout, s)
  | fuel+1 =>
    match entries with
    | [] => (.ok (), s)
    | (k, v) :: rest =>
      bindO (s.push_env Environment.new line) (fun _ s1 =>
        let s2 := define_locals s1 namelist [k, v] 0
        match exec_block fuel s2 body with
        | (.ok _, s3) => gfor_loop fuel s3.pop_env namelist rest body line
        | (.ex (.Break _), s3) => (.ok (), s3.pop_env)
        | other => other)
termination_by structural fuel

/-- `Interpreter::exec_numeric_for`: push a frame, bind the loop
variable to the collapsed start value, then desugar into a while
statement whose condition is `name <= stop` and whose body re-runs the
block and executes `name = name + step`; finally pop the frame. -/
def exec_numeric_for (fuel : Nat) (s : Interp) (name : Name) (start : Exp) (stop : Exp) (step : Exp) (body : Block) (line : Nat) : OutInterp Unit :=
  match fuel with
  | 0 => (.timeout, s)
  | fuel+1 =>
    bindO (s.push_env Environment.new line) (fun _ s1 =>
      bindO (eval fuel s1 start line) (fun sv s2 =>
        let s3 := s2.define_local name sv.compress
        let var := Var.Name name
        let condition := Exp.Binary (Exp.Var var) (Token.mk TokenType.LESSEQUAL 0) stop
        let update := Stmt.Assign [var]
          [Exp.Binary (Exp.Var var) (Token.mk TokenType.PLUS 0) step] line
        let new_body : Block := [Stmt.DoBlockEnd body line, update]
        let whilestmt := Stmt.WhileStmt condition new_body line
        bindO (exec fuel s3 whilestmt) (fun _ s4 => (.ok (), s4.pop_env))))
termination_by structural fuel

/-- `Interpreter::exec_if`: run the first truthy branch in a fresh
frame. -/
def exec_if (fuel : Nat) (s : Interp) (condition : Exp) (then_branch : Block) (elseif_branches : List (Exp × Block)) (option_else_branch : Option Block) (line : Nat) : OutInterp Unit :=
  match fuel with
  | 0 => (.timeout, s)
  | fuel+1 =>
    bindO (eval fuel s condition line) (fun c0 s1 =>
      if truthy c0.compress then
        bindO (s1.push_env Environment.new line) (fun _ s2 =>
          bindO (exec_block fuel s2 then_branch) (fun _ s3 => (.ok (), s3.pop_env)))
      else exec_elseifs fuel s1 elseif_branches option_else_branch line)
termination_by structural fuel

/-- The elseif scan of `exec_if` (the source's flag-controlled loop). -/
def exec_elseifs (fuel : Nat) (s : Interp) (branches : List (Exp × Block)) (option_else_branch : Option Block) (line : Nat) : OutInterp Unit :=
  match fuel with
  | 0 => (.timeout, s)
  | fuel+1 =>
    match branches with
    | [] =>
      match option_else_branch with
      | some else_branch =>
        bindO (s.push_env Environment.new line) (fun _ s1 =>
          bindO (exec_block fuel s1 else_branch) (fun _ s2 => (.ok (), s2.pop_env)))
      | none => (.ok (), s)
    | (e, blk) :: rest =>
      bindO (eval fuel s e line) (fun c0 s1 =>
        if truthy c0.compress then
          bindO (s1.push_env Environment.new line) (fun _ s2 =>
            bindO (exec_block fuel s2 blk) (fun _ s3 => (.ok (), s3.pop_env)))
        else exec_elseifs fuel s1 rest option_else_branch line)
termination_by structural fuel

/-- `Interpreter::exec_while`: evaluate the condition, then loop. -/
def exec_while (fuel : Nat) (s : Interp) (condition : Exp) (body : Block) (line : Nat) : OutInterp Unit :=
  match fuel with
  | 0 => (.timeout, s)
  | fuel+1 =>
    bindO (eval fuel s condition line) (fun c0 s1 =>
      while_loop fuel s1 condition c0.compress body line)
termination_by structural fuel

/-- The loop of `exec_while`: while the condition value is truthy, push
a frame and run the body; on normal completion the condition is
re-evaluated inside the body frame, which is then popped; `Break` pops
and exits; other signals propagate without the pop. -/
def while_loop (fuel : Nat) (s : Interp) (condition : Exp) (cond : Value) (body : Block) (line : Nat) : OutInterp Unit :=
  match fuel with
  | 0 => (.timeout, s)
  | fuel+1 =>
    if truthy cond then
      bindO (s.push_env Environment.new line) (fun _ s1 =>
        match exec_block fuel s1 body with
        | (.ok _, s2) =>
          bindO (eval fuel s2 condition line) (fun c s3 =>
            while_loop fuel s3.pop_env condition c.compress body line)
        | (.ex (.Break _), s2) => (.ok (), s2.pop_env)
        | other => other)
    else (.ok (), s)
termination_by structural fuel

/-- `Interpreter::exec_return`: evaluate and collapse every expression
of the list, then raise `RetResult`. -/
def exec_return (fuel : Nat) (s : Interp) (explist : List Exp) (line : Nat) : OutInterp Unit :=
  match fuel with
  | 0 => (.timeout, s)
  | fuel+1 =>
    bindO (eval_explist_compress_all fuel s explist line) (fun values s1 =>
      (.ex (.RetResult values), s1))

termination_by structural fuel
end

/-- `Rua::interpret`: run a parsed block on a fresh interpreter. -/
def interpret (fuel : Nat) (block : Block) : OutInterp Unit :=
  exec_block fuel Interp.new block

-- ## Specification-side definition (for the refinement claim C9)

/-- Written from the specification's words, not from the source: a
string is a valid decimal literal iff it is `digits` or `digits.digits`. -/
def specIsDecimalLiteral (s : String) : Bool :=
  let cs := s.toList
  let d1 := cs.takeWhile Char.isDigit
  let rest := cs.dropWhile Char.isDigit
  !d1.isEmpty &&
    match rest with
    | [] => true
    | c :: rest2 =>
      (c == '.') &&
        (let d2 := rest2.takeWhile Char.isDigit
         !d2.isEmpty && (rest2.dropWhile Char.isDigit).isEmpty)

-- ## Concrete programs
--
-- Shorthand constructors for AST nodes (test harness only; line numbers
-- are the source lines of the sketched programs).

/-- A number literal expression. -/
def nlit (x : Int) : Exp := Exp.Literal (Token.mk (TokenType.NUMBER (ratOfInt x)) 0)

/-- The `true` literal. -/
def tlit : Exp := Exp.Literal (Token.mk TokenType.TRUE 0)

/-- A name expression. -/
def vr (n : Name) : Exp := Exp.Var (Var.Name n)

/-- A binary operation. -/
def binop (l : Exp) (t : TokenType) (r : Exp) : Exp := Exp.Binary l (Token.mk t 0) r

/-- A call of a named function. -/
def callE (f : Name) (args : List Exp) : Exp := Exp.FunctionCall (vr f) args

/-- `print(1 + 2 * 3)` -/
def progPrintArith : Block :=
  [Stmt.FunctionCall (vr ("print")) [binop (nlit 1) TokenType.PLUS (binop (nlit 2) TokenType.MUL (nlit 3))] 1]

/-- `local function f() return 1, 2 end` / `print(f())` -/
def progPrintMulti : Block :=
  [Stmt.FuncDecl true ("f") [] [Stmt.RetStmt [nlit 1, nlit 2] 1] 1,
   Stmt.FunctionCall (vr ("print")) [callE ("f") []] 2]

/-- `local x = 1` / `local function f(a) return a end` / `x = 2` /
`local y = f(x)` -/
def progArgEnv : Block :=
  [Stmt.LocalAssign [("x")] [nlit 1] 1,
   Stmt.FuncDecl true ("f") [("a")] [Stmt.RetStmt [vr ("a")] 2] 2,
   Stmt.Assign [Var.Name ("x")] [nlit 2] 3,
   Stmt.LocalAssign [("y")] [callE ("f") [vr ("x")]] 4]

/-- `local function f() return 1, 2 end` /
`local function g() return f() end` / `local a, b = g()` -/
def progReturnFwd : Block :=
  [Stmt.FuncDecl true ("f") [] [Stmt.RetStmt [nlit 1, nlit 2] 1] 1,
   Stmt.FuncDecl true ("g") [] [Stmt.RetStmt [callE ("f") []] 2] 2,
   Stmt.LocalAssign [("a"), ("b")] [callE ("g") []] 3]

/-- `local t = {}` / `t[1], t[2] = 5` -/
def progShortAssign : Block :=
  [Stmt.LocalAssign [("t")] [Exp.TableConstructor []] 1,
   Stmt.Assign
     [Var.TableIndex (vr ("t")) (nlit 1), Var.TableIndex (vr ("t")) (nlit 2)]
     [nlit 5] 2]

/-- `local function f() break end` / `f()` -/
def progBreakCall : Block :=
  [Stmt.FuncDecl true ("f") [] [Stmt.Break 1] 1,
   Stmt.FunctionCall (vr ("f")) [] 2]

/-- `local n = 0` / `local function f() break end` /
`while true do n = n + 1; f(); n = n + 10 end` -/
def progBreakLoop : Block :=
  [Stmt.LocalAssign [("n")] [nlit 0] 1,
   Stmt.FuncDecl true ("f") [] [Stmt.Break 2] 2,
   Stmt.WhileStmt tlit
     [Stmt.Assign [Var.Name ("n")] [binop (vr ("n")) TokenType.PLUS (nlit 1)] 4,
      Stmt.FunctionCall (vr ("f")) [] 5,
      Stmt.Assign [Var.Name ("n")] [binop (vr ("n")) TokenType.PLUS (nlit 10)] 6] 3]

/-- `for i = 1, 1, print(7) do print(5) end` — the step expression has
the observable side effect of printing 7, so the output order shows when
it is evaluated relative to the loop body. -/
def progStepOrder : Block :=
  [Stmt.NumericFor ("i") (nlit 1) (nlit 1)
     (Exp.FunctionCall (vr ("print")) [nlit 7])
     [Stmt.FunctionCall (vr ("print")) [nlit 5] 1] 1]

/-- `local function g() print(9) return 1 end` /
`for i = 1, 0, g() do end` — a numeric for whose body never runs, with a
side-effecting step expression. -/
def progStepNever : Block :=
  [Stmt.FuncDecl true ("g") []
     [Stmt.FunctionCall (vr ("print")) [nlit 9] 1, Stmt.RetStmt [nlit 1] 1] 1,
   Stmt.NumericFor ("i") (nlit 1) (nlit 0) (callE ("g") []) [] 2]

-- ## Helper lemmas

/-- Boolean equality of rationals agrees with propositional equality. -/
theorem ratEqB_iff (a b : Rat) : ratEqB a b = true ↔ a = b := by
  simp only [ratEqB, Bool.and_eq_true, beq_iff_eq]
  constructor
  · rintro ⟨h1, h2⟩
    exact Rat.ext h1 h2
  · rintro rfl
    exact ⟨rfl, rfl⟩

/-- The collapse operation never produces a `ValueList`. -/
theorem compress_ne_valuelist : ∀ (v : Value) (vs : List Value), Value.compress v ≠ Value.ValueList vs
  | .Bool b, vs => by simp [Value.compress]
  | .Str t, vs => by simp [Value.compress]
  | .Num q, vs => by simp [Value.compress]
  | .Nil, vs => by simp [Value.compress]
  | .Address a, vs => by simp [Value.compress]
  | .Print, vs => by simp [Value.compress]
  | .ValueList [], vs => by simp [Value.compress]
  | .ValueList (w :: ws), vs => by
      simpa [Value.compress] using compress_ne_valuelist w vs

/-- Collapsing is idempotent. -/
theorem compress_compress (v : Value) : Value.compress (Value.compress v) = Value.compress v := by
  have h := compress_ne_valuelist v
  cases hv : Value.compress v with
  | ValueList vs => exact absurd hv (h vs)
  | Bool b => simp [Value.compress]
  | Str t => simp [Value.compress]
  | Num q => simp [Value.compress]
  | Nil => simp [Value.compress]
  | Address a => simp [Value.compress]
  | Print => simp [Value.compress]

/-- Every value produced by the all-collapsing expression-list loop is
the image of a collapse. -/
theorem eval_explist_compress_all_compressed :
    ∀ (fuel : Nat) (s : Interp) (exps : List Exp) (line : Nat) (vs : List Value) (s2 : Interp),
      eval_explist_compress_all fuel s exps line = (Outcome.ok vs, s2) →
      ∀ v ∈ vs, ∃ w, v = Value.compress w := by
  intro fuel
  induction fuel with
  | zero =>
    intro s exps line vs s2 h
    rw [eval_explist_compress_all] at h
    simp at h
  | succ n ih =>
    intro s exps line vs s2 h
    cases exps with
    | nil =>
      rw [eval_explist_compress_all] at h
      simp at h
      simp [h.1]
    | cons e rest =>
      rw [eval_explist_compress_all] at h
      rcases he : eval n s e line with ⟨out, s1⟩
      rw [he] at h
      cases out with
      | ok v =>
        simp only [bindO] at h
        rcases hr : eval_explist_compress_all n s1 rest line with ⟨out2, s3⟩
        rw [hr] at h
        cases out2 with
        | ok vs2 =>
          simp only [bindO, Prod.mk.injEq] at h
          obtain ⟨h1, h2⟩ := h
          cases h1
          intro v hv
          rcases List.mem_cons.mp hv with hh | ht
          · exact ⟨_, hh⟩
          · exact ih s1 rest line vs2 s3 hr v ht
        | ex e2 => simp [bindO] at h
        | hostPanic m => simp [bindO] at h
        | timeout => simp [bindO] at h
      | ex e2 => simp [bindO] at h
      | hostPanic m => simp [bindO] at h
      | timeout => simp [bindO] at h

/-- If a pattern occurs as a substring, its first character occurs in
the searched list. -/
theorem listContains_head_mem : ∀ (c : Char) (pat cs : List Char),
    listContains (c :: pat) cs = true → c ∈ cs := by
  intro c pat cs
  induction cs with
  | nil => intro h; simp [listContains] at h
  | cons d rest ih =>
    intro h
    simp only [listContains, Bool.or_eq_true] at h
    rcases h with h | h
    · simp only [List.isPrefixOf, Bool.and_eq_true, beq_iff_eq] at h
      simp [h.1]
    · exact List.mem_cons_of_mem d (ih h)

/-- Every character of a decimal literal is a digit or the dot. -/
theorem specIsDecimalLiteral_chars (s : String) (h : specIsDecimalLiteral s = true) :
    ∀ c ∈ s.toList, c.isDigit = true ∨ c = '.' := by
  intro c hc
  unfold specIsDecimalLiteral at h
  simp only [Bool.and_eq_true, Bool.not_eq_true'] at h
  obtain ⟨hd1, hrest⟩ := h
  have hsplit := List.takeWhile_append_dropWhile (p := Char.isDigit) (l := s.toList)
  rcases hre : s.toList.dropWhile Char.isDigit with _ | ⟨c0, rest2⟩
  · rw [hre] at hsplit
    simp at hsplit
    exact Or.inl (hsplit c hc)
  · rw [hre] at hrest
    simp only [Bool.and_eq_true, beq_iff_eq] at hrest
    obtain ⟨hc0, hd2, hr3⟩ := hrest
    rw [hre] at hsplit
    rw [← hsplit] at hc
    rcases List.mem_append.mp hc with hmem | hmem
    · exact Or.inl (List.mem_takeWhile_imp hmem)
    · rcases List.mem_cons.mp hmem with hceq | hmem2
      · exact Or.inr (hceq.trans hc0)
      · have hsplit2 := List.takeWhile_append_dropWhile (p := Char.isDigit) (l := rest2)
        rw [List.isEmpty_iff] at hr3
        rw [hr3] at hsplit2
        simp at hsplit2
        exact Or.inl (hsplit2 c hmem2)

/-- A decimal literal starts with a digit. -/
theorem isDigit_head_of_spec (s : String) (h : specIsDecimalLiteral s = true) :
    ∃ c cs0, s.toList = c :: cs0 ∧ c.isDigit = true := by
  unfold specIsDecimalLiteral at h
  simp only [Bool.and_eq_true, Bool.not_eq_true'] at h
  obtain ⟨hd1, _⟩ := h
  rcases hls : s.toList with _ | ⟨c, cs0⟩
  · rw [hls] at hd1; simp at hd1
  · refine ⟨c, cs0, rfl, ?_⟩
    rw [hls] at hd1
    by_cases hd : c.isDigit
    · exact hd
    · rw [List.takeWhile_cons_of_neg (by simpa using hd)] at hd1
      simp at hd1

/-- Every decimal literal is accepted by the host float grammar. -/
theorem specIsDecimalLiteral_accepts (s : String) (h : specIsDecimalLiteral s = true) :
    rustF64Accepts s = true := by
  obtain ⟨c, cs0, hls, hcdig⟩ := isDigit_head_of_spec s h
  unfold specIsDecimalLiteral at h
  simp only [Bool.and_eq_true, Bool.not_eq_true'] at h
  obtain ⟨hd1, hrest⟩ := h
  have hplus : (c == '+') = false := by
    by_contra hx
    simp only [Bool.not_eq_false, beq_iff_eq] at hx
    rw [hx] at hcdig
    exact absurd hcdig (by decide)
  have hminus : (c == '-') = false := by
    by_contra hx
    simp only [Bool.not_eq_false, beq_iff_eq] at hx
    rw [hx] at hcdig
    exact absurd hcdig (by decide)
  have hdrop : dropSign s.toList = s.toList := by
    rw [hls]
    simp [dropSign, hplus, hminus]
  have hnum : checkNumber s.toList = true := by
    unfold checkNumber
    simp only [hd1, Bool.false_eq_true, if_false]
    rcases hre : s.toList.dropWhile Char.isDigit with _ | ⟨c0, rest2⟩
    · simp
    · rw [hre] at hrest
      simp only [Bool.and_eq_true, beq_iff_eq] at hrest
      obtain ⟨hc0, hd2, hr3⟩ := hrest
      rw [List.isEmpty_iff] at hr3
      simp only [hc0]
      simp [checkExpPart, hr3]
  unfold rustF64Accepts
  simp only [hdrop, hnum, Bool.or_true]

-- ## Claim theorems

/-- C1 (counterexample): the program `print(1 + 2 * 3)` does not write
"7\n"; the interpreter writes a tab after every printed value, so the
output is "7\t\n". -/
theorem C1_print_counterexample :
    (interpret 10 progPrintArith).2.output = "7\t\n" ∧
    (interpret 10 progPrintArith).2.output ≠ "7\n" := by
  refine ⟨rfl, ?_⟩
  have h1 : (interpret 10 progPrintArith).2.output = "7\t\n" := rfl
  rw [h1]
  decide

/-- C1 (amended): the built-in print collapses every argument, the last
included (no multi-value expansion), and writes each display form
followed by a tab — also after the final value — then one newline.
`print(1 + 2 * 3)` writes exactly "7\t\n", and printing a call that
returned the two values 1, 2 writes only "1\t\n". -/
theorem C1_print_amended :
    (interpret 10 progPrintArith).1 = Outcome.ok () ∧
    (interpret 10 progPrintArith).2.output = "7\t\n" ∧
    (interpret 14 progPrintMulti).2.output = "1\t\n" :=
  ⟨rfl, rfl, rfl⟩

/-- C2 (counterexample): the equality test judges Nil unequal to Nil and
true unequal to true, contradicting the claim that Nil equals Nil and
Booleans compare by value. -/
theorem C2_equal_counterexample :
    equal Value.Nil Value.Nil ≠ true ∧ equal (Value.Bool true) (Value.Bool true) ≠ true := by
  decide

/-- C2 (amended): the equality test used by == and ~= returns true
exactly when both operands are numbers with the same value, both are
strings with the same value, or both are handles with the same address;
in particular Nil is never equal to Nil and Booleans are never equal,
and there is no coercion. -/
theorem C2_equal_amended (l r : Value) :
    equal l r = true ↔
      ((∃ q, l = Value.Num q ∧ r = Value.Num q) ∨
       (∃ t, l = Value.Str t ∧ r = Value.Str t) ∨
       (∃ a, l = Value.Address a ∧ r = Value.Address a)) := by
  cases l <;> cases r <;> simp [equal, ratEqB_iff] <;> aesop

/-- C4 (counterexample): in the program `local x = 1` /
`local function f(a) return a end` / `x = 2` / `local y = f(x)`, the
claim implies that the argument `x` resolves in the caller's environment
(so y = 2); the run completes but y is not 2. -/
theorem C4_arg_env_counterexample :
    (interpret 16 progArgEnv).1 = Outcome.ok () ∧
    (interpret 16 progArgEnv).2.get ("y") ≠ some (Value.Num (ratOfInt 2)) := by
  refine ⟨rfl, ?_⟩
  have h1 : (interpret 16 progArgEnv).2.get ("y") = some (Value.Num (ratOfInt 1)) := rfl
  rw [h1]
  intro h
  injection h with h2
  injection h2 with h3
  exact absurd h3 (by decide)

/-- C4 (amended): the clone of the closure's captured environment stack
is appended, and the fresh parameter frame pushed, before the argument
expressions are evaluated (inside parameter binding); argument
expressions therefore resolve names against the caller's stack extended
by the callee's captured frames, whose stale binding x = 1 shadows the
caller's x = 2, giving y = 1 while the caller's x stays 2. -/
theorem C4_arg_env_amended :
    (interpret 16 progArgEnv).2.get ("y") = some (Value.Num (ratOfInt 1)) ∧
    (interpret 16 progArgEnv).2.get ("x") = some (Value.Num (ratOfInt 2)) :=
  ⟨rfl, rfl⟩

/-- C5 (counterexample): with `local function f() return 1, 2 end` /
`local function g() return f() end` / `local a, b = g()`, the claim
implies b = 2 (return forwards every value of f); the interpreter
collapses the call, so b is Nil. -/
theorem C5_return_counterexample :
    (interpret 20 progReturnFwd).2.get ("b") = some Value.Nil ∧
    (interpret 20 progReturnFwd).2.get ("b") ≠ some (Value.Num (ratOfInt 2)) := by
  refine ⟨rfl, ?_⟩
  have h1 : (interpret 20 progReturnFwd).2.get ("b") = some Value.Nil := rfl
  rw [h1]
  intro h
  injection h with h2
  exact Value.noConfusion h2

/-- C5 (amended): a return statement evaluates its expressions left to
right and collapses every one of them, the last included; when that
evaluation succeeds with values vs, the Return signal carries exactly
vs and none of the carried values is a ValueList, so `return f()`
forwards only the first value f returned (in the concrete program,
a = 1 and b = Nil). -/
theorem C5_return_collapses_all :
    (∀ (fuel : Nat) (s : Interp) (explist : List Exp) (line : Nat) (vs : List Value) (s1 : Interp),
        eval_explist_compress_all fuel s explist line = (Outcome.ok vs, s1) →
        exec_return (fuel+1) s explist line
            = (Outcome.ex (RuntimeException.RetResult vs), s1) ∧
          ∀ v ∈ vs, ∀ ws, v ≠ Value.ValueList ws)
    ∧ (interpret 20 progReturnFwd).2.get ("a") = some (Value.Num (ratOfInt 1))
    ∧ (interpret 20 progReturnFwd).2.get ("b") = some Value.Nil := by
  refine ⟨?_, rfl, rfl⟩
  intro fuel s explist line vs s1 h
  constructor
  · rw [exec_return, h]
    rfl
  · intro v hv ws
    obtain ⟨w, hw⟩ := eval_explist_compress_all_compressed fuel s explist line vs s1 h v hv
    rw [hw]
    exact compress_ne_valuelist w ws

/-- C5 (witness): the general part of the amended theorem applied to the
concrete return statement `return 1`. -/
theorem C5_return_witness :
    exec_return 5 Interp.new [nlit 1] 0
      = (Outcome.ex (RuntimeException.RetResult [Value.Num (ratOfInt 1)]), Interp.new) :=
  (C5_return_collapses_all.1 4 Interp.new [nlit 1] 0 [Value.Num (ratOfInt 1)] Interp.new rfl).1

/-- C6 (code bug): the multi-assignment `local t = {}` / `t[1], t[2] = 5`
has fewer source values than targets; the second table-index target
evaluates `values[1]` on a one-element vector, which is the Rust
index-out-of-bounds panic, not an assignment of Nil. -/
theorem C6_short_assign_panics :
    (interpret 10 progShortAssign).1 = Outcome.hostPanic ("index out of bounds") :=
  rfl

/-- C7 (counterexample): a Break raised in a called function's body is
not converted into an error by the call executor — it propagates out of
the call unchanged (the bare call program ends in the Break signal
itself), and in the loop program it terminates the caller's while loop
after one iteration (n = 1), which the claim says can never happen. -/
theorem C7_break_counterexample :
    (interpret 10 progBreakCall).1 = Outcome.ex (RuntimeException.Break 1) ∧
    (interpret 16 progBreakLoop).2.get ("n") = some (Value.Num (ratOfInt 1)) :=
  ⟨rfl, rfl⟩

/-- C7 (amended): the call executor converts only RetResult; a Break
signal propagates out of the call unchanged, so a break inside a called
function terminates a loop in the caller: the while loop exits normally
after its first iteration, skipping the statements after the call. -/
theorem C7_break_amended :
    (interpret 16 progBreakLoop).1 = Outcome.ok () ∧
    (interpret 16 progBreakLoop).2.get ("n") = some (Value.Num (ratOfInt 1)) ∧
    (interpret 10 progBreakCall).1 ≠ Outcome.ex (RuntimeException.RuntimeError 1
      ("<break> at line 1 not inside a loop")) := by
  refine ⟨rfl, rfl, ?_⟩
  have h1 : (interpret 10 progBreakCall).1 = Outcome.ex (RuntimeException.Break 1) := rfl
  rw [h1]
  intro h
  injection h with h2
  exact RuntimeException.noConfusion h2

/-- C8 (counterexample): in `for i = 1, 1, print(7) do print(5) end` the
claim implies the step side effect (printing 7) happens before the first
iteration's body (printing 5); the interpreter prints 5 first.  In the
zero-iteration loop with a printing step, the claim implies one print;
the interpreter evaluates the step not at all. -/
theorem C8_step_counterexample :
    (interpret 20 progStepOrder).2.output = "5\t\n7\t\n" ∧
    (interpret 20 progStepOrder).2.output ≠ "7\t\n5\t\n" ∧
    (interpret 12 progStepNever).2.output = "" ∧
    (interpret 12 progStepNever).2.output ≠ "9\t\n" := by
  refine ⟨rfl, ?_, rfl, ?_⟩
  · have h1 : (interpret 20 progStepOrder).2.output = "5\t\n7\t\n" := rfl
    rw [h1]
    decide
  · have h2 : (interpret 12 progStepNever).2.output = "" := rfl
    rw [h2]
    decide

/-- C8 (amended): the step expression is not evaluated before the first
iteration; it is cloned into the update statement `i = i + step`, which
runs after each iteration's body (so its side effects follow the body:
5 is printed before 7, and the non-numeric step value then raises the
addition error of the update), and it is never evaluated when the loop
body never runs. -/
theorem C8_step_amended :
    (interpret 20 progStepOrder).2.output = "5\t\n7\t\n" ∧
    (interpret 20 progStepOrder).1
      = Outcome.ex (RuntimeException.RuntimeError 0 ("attempt to add number with nil")) ∧
    (interpret 12 progStepNever).1 = Outcome.ok () ∧
    (interpret 12 progStepNever).2.output = "" :=
  ⟨rfl, rfl, rfl, rfl⟩

/-- C9 (counterexample): the string "1E5" is not a decimal literal, yet
string-to-number coercion accepts it — the hand-written filter rejects
only a lowercase letter e, and the host parser accepts uppercase
scientific notation. -/
theorem C9_number_counterexample :
    ((Value.Str ("1E5")).number).isSome = true ∧ specIsDecimalLiteral ("1E5") = false :=
  ⟨rfl, rfl⟩

/-- C9 (amended): every decimal literal (digits or digits.digits) is
accepted by the coercion; any string containing the substrings inf, nan
or a lowercase e is rejected; and everything the coercion accepts lies
in the host float grammar — which also admits non-literals such as
uppercase scientific notation. -/
theorem C9_number_amended (s : String) :
    (specIsDecimalLiteral s = true → ((Value.Str s).number).isSome = true) ∧
    (strContains s ("e") = true → (Value.Str s).number = none) ∧
    (strContains s ("inf") = true → (Value.Str s).number = none) ∧
    (strContains s ("nan") = true → (Value.Str s).number = none) ∧
    (((Value.Str s).number).isSome = true → rustF64Accepts s = true) := by
  refine ⟨?_, ?_, ?_, ?_, ?_⟩
  · intro h
    have hchars := specIsDecimalLiteral_chars s h
    have hacc := specIsDecimalLiteral_accepts s h
    have hnd : ∀ (c : Char) (pat : List Char), c.isDigit = false → c ≠ '.' →
        listContains (c :: pat) s.toList = false := by
      intro c pat hcd hcdot
      by_contra hx
      simp only [Bool.not_eq_false] at hx
      rcases hchars c (listContains_head_mem c pat s.toList hx) with hd | hd
      · rw [hd] at hcd
        simp at hcd
      · exact hcdot hd
    have he : strContains s ("e") = false := hnd 'e' [] (by decide) (by decide)
    have hi : strContains s ("inf") = false := hnd 'i' ['n', 'f'] (by decide) (by decide)
    have hn : strContains s ("nan") = false := hnd 'n' ['a', 'n'] (by decide) (by decide)
    simp only [Value.number, he, hi, hn, Bool.or_self, Bool.false_eq_true, if_false, hacc,
      if_true, Option.isSome_some]
  · intro h
    simp [Value.number, h]
  · intro h
    simp [Value.number, h]
  · intro h
    simp [Value.number, h]
  · intro h
    simp only [Value.number] at h
    split at h
    · simp at h
    · split at h
      next hacc => exact hacc
      next => simp at h

/-- C9 (witness): the amended theorem applied to the decimal literal
"3.25". -/
theorem C9_number_witness :
    specIsDecimalLiteral ("3.25") = true ∧ ((Value.Str ("3.25")).number).isSome = true :=
  ⟨by decide, (C9_number_amended ("3.25")).1 (by decide)⟩

/-- C10: the collapse operation never returns a ValueList — it descends
through nested lists to the first non-list leaf, or Nil for an empty
list — and is therefore idempotent. -/
theorem C10_compress_no_valuelist_idempotent (v : Value) :
    (∀ vs, Value.compress v ≠ Value.ValueList vs) ∧
    Value.compress (Value.compress v) = Value.compress v :=
  ⟨compress_ne_valuelist v, compress_compress v⟩

end Rua
